import Mathlib

/-!
Verification of the replay scheduling subsystem of data_simulator.py
(class DataSimulator): corpus indexer, batch scheduler, dispatcher and
cadence driver.  Filenames and file paths are modelled as lists of
characters; file contents are an abstract payload type.
-/

/-- Models os.path.basename: the part of the path after the last slash. -/
def basename (p : List Char) : List Char :=
  (p.reverse.takeWhile (fun c => c ≠ '/')).reverse

/-- Models Python str.replace applied as filename.replace with the
pattern .csv and an empty replacement: every (left-to-right,
non-overlapping) occurrence of the four characters .csv is removed. -/
def stripCsv : List Char → List Char
  | '.' :: 'c' :: 's' :: 'v' :: rest => stripCsv rest
  | c :: rest => c :: stripCsv rest
  | [] => []

/-- Models Python str.split with separator - (a dash): the maximal
dash-free chunks, keeping empty chunks, so the result is never empty. -/
def splitDash : List Char → List (List Char)
  | [] => [[]]
  | c :: rest =>
    if c = '-' then [] :: splitDash rest
    else
      match splitDash rest with
      | h :: t => (c :: h) :: t
      | [] => [c] :: []

/-- Numeric value of a list of decimal digits, most significant first. -/
def digitsVal (s : List Char) : Nat :=
  s.foldl (fun a c => a * 10 + (c.toNat - 48)) 0

/-- The ASCII whitespace characters Python int() strips from both ends of
its string argument. -/
def isPySpace (c : Char) : Bool :=
  c == ' ' || c == '\t' || c == '\n' || c == '\r' || c == '\x0b' || c == '\x0c'

/-- Both-ends whitespace strip performed by Python int(). -/
def stripSpaces (s : List Char) : List Char :=
  ((s.dropWhile isPySpace).reverse.dropWhile isPySpace).reverse

/-- The tail of the digit body of a Python int literal after its first
digit: decimal digits with single underscores strictly between digits. -/
def digitsBody : List Char → Bool
  | [] => true
  | '_' :: c :: rest => c.isDigit && digitsBody rest
  | c :: rest => c.isDigit && digitsBody rest

/-- Models Python int() applied to the shard-id segment at ASCII
fidelity, as CPython executes it: surrounding ASCII whitespace is
stripped, one leading plus sign is accepted, and the rest must be decimal
digits with single underscores strictly between digits (so int also
accepts forms such as plus-1, space-1 and 1-underscore-0).  A minus sign
cannot occur here because the segment is a dash-free chunk of the split
name.  CPython additionally accepts non-ASCII Unicode decimal digits and
Unicode spaces; those codepoints are outside this model's alphabet. -/
def pyInt (s : List Char) : Option Nat :=
  let t := stripSpaces s
  let u := match t with
    | '+' :: rest => rest
    | _ => t
  match u with
  | c :: rest =>
    if c.isDigit && digitsBody rest then
      some (digitsVal ((c :: rest).filter (fun x => x != '_')))
    else none
  | [] => none

/-- Gregorian leap-year test, as used by datetime. -/
def isLeapYear (y : Nat) : Bool :=
  (y % 4 == 0 && y % 100 != 0) || y % 400 == 0

/-- Number of days of month m in year y, as used by datetime. -/
def daysInMonth (y m : Nat) : Nat :=
  if m = 2 then (if isLeapYear y then 29 else 28)
  else if m = 4 ∨ m = 6 ∨ m = 9 ∨ m = 11 then 30
  else 31

/-- The month alternatives of CPython strptime's regex for the directive
percent-m, in the engine's alternation order (first 1[0-2], then 0[1-9],
then [1-9]); each candidate pairs the captured value with the rest of the
input. -/
def monthCands (s : List Char) : List (Nat × List Char) :=
  (match s with
   | '1' :: c :: rest =>
     if '0' ≤ c ∧ c ≤ '2' then [(10 + (c.toNat - 48), rest)] else []
   | _ => []) ++
  (match s with
   | '0' :: c :: rest =>
     if '1' ≤ c ∧ c ≤ '9' then [(c.toNat - 48, rest)] else []
   | _ => []) ++
  (match s with
   | c :: rest =>
     if '1' ≤ c ∧ c ≤ '9' then [(c.toNat - 48, rest)] else []
   | _ => [])

/-- The day alternatives of CPython strptime's regex for the directive
percent-d, in the engine's alternation order (3[0-1], then [1-2] followed
by a digit, then 0[1-9], then [1-9], then a space-padded [1-9]). -/
def dayCands (s : List Char) : List (Nat × List Char) :=
  (match s with
   | '3' :: c :: rest =>
     if '0' ≤ c ∧ c ≤ '1' then [(30 + (c.toNat - 48), rest)] else []
   | _ => []) ++
  (match s with
   | c1 :: c2 :: rest =>
     if ('1' ≤ c1 ∧ c1 ≤ '2') ∧ c2.isDigit then
       [((c1.toNat - 48) * 10 + (c2.toNat - 48), rest)] else []
   | _ => []) ++
  (match s with
   | '0' :: c :: rest =>
     if '1' ≤ c ∧ c ≤ '9' then [(c.toNat - 48, rest)] else []
   | _ => []) ++
  (match s with
   | c :: rest =>
     if '1' ≤ c ∧ c ≤ '9' then [(c.toNat - 48, rest)] else []
   | _ => []) ++
  (match s with
   | ' ' :: c :: rest =>
     if '1' ≤ c ∧ c ≤ '9' then [(c.toNat - 48, rest)] else []
   | _ => [])

/-- The hour alternatives of CPython strptime's regex for the directive
percent-H, in the engine's alternation order (2[0-3], then [0-1] followed
by a digit, then a single digit). -/
def hourCands (s : List Char) : List (Nat × List Char) :=
  (match s with
   | '2' :: c :: rest =>
     if '0' ≤ c ∧ c ≤ '3' then [(20 + (c.toNat - 48), rest)] else []
   | _ => []) ++
  (match s with
   | c1 :: c2 :: rest =>
     if ('0' ≤ c1 ∧ c1 ≤ '1') ∧ c2.isDigit then
       [((c1.toNat - 48) * 10 + (c2.toNat - 48), rest)] else []
   | _ => []) ++
  (match s with
   | c :: rest => if c.isDigit then [(c.toNat - 48, rest)] else []
   | _ => [])

/-- The first candidate, in engine order, that consumes its whole input:
the hour group ends the format, so a leftover after the first match makes
strptime raise for unconverted data rather than backtrack. -/
def firstExact (cands : List (Nat × List Char)) : Option Nat :=
  cands.findSome? (fun x => if x.2 = [] then some x.1 else none)

/-- The (month, day) pair the regex engine captures from the part of the
date segment after the four year digits: the first month alternative, in
alternation order, under which some day alternative consumes the segment
exactly.  The literal dash that follows in the format forces the day to
end the date segment, and a failure there backtracks through the earlier
alternatives, which the nested search reproduces. -/
def monthDay (s : List Char) : Option (Nat × Nat) :=
  (monthCands s).findSome? (fun mc =>
    (dayCands mc.2).findSome? (fun dc =>
      if dc.2 = [] then some (mc.1, dc.1) else none))

/-- Models datetime.strptime of date-dash-hour against the format
percent-Y percent-m percent-d dash percent-H at ASCII fidelity, as
CPython executes it: the year is exactly four digits; month and day are
matched by the regex alternations with backtracking, so one- and
two-digit months and days and a space-padded day are accepted (a
seven-digit date such as 2021923 indexes as 2021-09-23); the hour is the
first alternation match and must consume the hour segment; finally the
date must construct, which requires year at least 1 and the day within
the month.  Both arguments are dash-free chunks of the split name, so
the format's literal dash always matches the inserted separator.
CPython would additionally accept non-ASCII Unicode decimal digits;
those codepoints are outside this model's alphabet.  A valid timestamp
is encoded as ((y*100+m)*100+d)*100+h, which orders exactly as datetime
ordering. -/
def parseTimestamp (dateStr hourStr : List Char) : Option Nat :=
  match dateStr with
  | c1 :: c2 :: c3 :: c4 :: rest =>
    if c1.isDigit && c2.isDigit && c3.isDigit && c4.isDigit then
      match monthDay rest, firstExact (hourCands hourStr) with
      | some (m, d), some h =>
        let y := digitsVal [c1, c2, c3, c4]
        if 1 ≤ y ∧ d ≤ daysInMonth y m then
          some (((y * 100 + m) * 100 + d) * 100 + h)
        else none
      | _, _ => none
    else none
  | _ => none

/-- One indexed artifact: (timestamp, shard id, filepath), the tuple
appended to file_timestamps in _get_sorted_files. -/
abbrev Entry := Nat × Nat × List Char

/-- Models the loop body of _get_sorted_files: basename, strip .csv,
split on dashes, parts[1] as int, parts[2]/parts[3] as a timestamp;
any ValueError or IndexError yields none (the entry is skipped). -/
def parseArtifact (filepath : List Char) : Option Entry :=
  let filename := basename filepath
  let parts := splitDash (stripCsv filename)
  match parts[1]?, parts[2]?, parts[3]? with
  | some idStr, some dateStr, some hourStr =>
    match pyInt idStr, parseTimestamp dateStr hourStr with
    | some sid, some ts => some (ts, sid, filepath)
    | _, _ => none
  | _, _, _ => none

/-- The dash-separated segments of a scanned name after stripping .csv,
used to state the malformed-name conditions. -/
def nameSegments (n : List Char) : List (List Char) :=
  splitDash (stripCsv (basename n))

/-- The sort key of file_timestamps.sort: the pair (timestamp, shop_id),
compared lexicographically, smaller first. -/
def entryLE (a b : Entry) : Prop :=
  a.1 < b.1 ∨ (a.1 = b.1 ∧ a.2.1 ≤ b.2.1)

instance : DecidableRel entryLE := fun a b =>
  inferInstanceAs (Decidable (a.1 < b.1 ∨ (a.1 = b.1 ∧ a.2.1 ≤ b.2.1)))

instance : IsTrans Entry entryLE :=
  ⟨fun a b c hab hbc => by unfold entryLE at *; omega⟩

instance : IsTotal Entry entryLE :=
  ⟨fun a b => by unfold entryLE; omega⟩

/-- The strict part of the sort order, used for uniqueness arguments. -/
def entryLT (a b : Entry) : Prop :=
  a.1 < b.1 ∨ (a.1 = b.1 ∧ a.2.1 < b.2.1)

instance : IsAntisymm Entry entryLT :=
  ⟨fun a b h₁ h₂ => absurd h₂ (by unfold entryLT at h₁ ⊢; omega)⟩

/-- The key (timestamp, shard id) of an entry. -/
def entryKey (e : Entry) : Nat × Nat := (e.1, e.2.1)

/-- The scan loop of _get_sorted_files: first component the parsed
entries in scan order, second component the skipped (warned) names in
scan order. -/
def scanResults : List (List Char) → List Entry × List (List Char)
  | [] => ([], [])
  | f :: rest =>
    match parseArtifact f with
    | some e => ((e :: (scanResults rest).1), (scanResults rest).2)
    | none => ((scanResults rest).1, (f :: (scanResults rest).2))

/-- Models _get_sorted_files on a scanned listing of names: parse each
name (skipping failures), sort stably by (timestamp, shop_id) ascending
(Python list.sort is a stable sort; insertion sort realises the same
contract), then keep (timestamp, filepath). -/
def get_sorted_files (files : List (List Char)) : List (Nat × List Char) :=
  let fileTimestamps := files.filterMap parseArtifact
  let sorted := List.insertionSort entryLE fileTimestamps
  sorted.map (fun e => (e.1, e.2.2))

/-- Python slice l[a:b] for nonnegative bounds: both ends clamped to the
list length, empty when b is at most a. -/
def pySlice (l : List α) (a b : Nat) : List α :=
  (l.drop a).take (b - a)

/-- The scheduler state of DataSimulator: the immutable corpus all_files
(pairs (timestamp, filepath) as returned by _get_sorted_files), the shard
count num_shops and the replay cursor current_index (0 at startup). -/
structure SchedulerState where
  all_files : List (Nat × List Char)
  num_shops : Nat
  current_index : Nat
deriving DecidableEq, Repr

/-- Models _get_next_batch: computes start and end indices, wraps to the
beginning when the end index passes the corpus length, returns the slice's
filepaths and stores the end index as the new cursor. -/
def get_next_batch (st : SchedulerState) : List (List Char) × SchedulerState :=
  let startIdx := st.current_index
  let endIdx := startIdx + st.num_shops
  if endIdx > st.all_files.length then
    ((pySlice st.all_files 0 st.num_shops).map Prod.snd,
      { st with current_index := st.num_shops })
  else
    ((pySlice st.all_files startIdx endIdx).map Prod.snd,
      { st with current_index := endIdx })

/-- The index at which the returned batch starts: the cursor normally,
0 when the call wraps. -/
def batch_start (st : SchedulerState) : Nat :=
  if st.current_index + st.num_shops > st.all_files.length then 0
  else st.current_index

/-- The corpus entries underlying one returned batch. -/
def batch_entries (st : SchedulerState) : List (Nat × List Char) :=
  pySlice st.all_files (batch_start st) (batch_start st + st.num_shops)

/-- The scheduler state after k calls to _get_next_batch. -/
def sched_iter (st : SchedulerState) : Nat → SchedulerState
  | 0 => st
  | k + 1 => (get_next_batch (sched_iter st k)).2

/-- The batch returned by call number k (0-based) to _get_next_batch. -/
def nth_batch (st : SchedulerState) (k : Nat) : List (List Char) :=
  (get_next_batch (sched_iter st k)).1

/-- The destination sink, a map from filename to content: the observable
state of the destination directory. -/
abbrev Sink (γ : Type) := List Char → Option γ

/-- Writing one file into the sink under key k with content v. -/
def sink_write (sink : Sink γ) (k : List Char) (v : γ) : Sink γ :=
  fun q => if q = k then some v else sink q

/-- One iteration of the copy loop of copy_batch: shutil.copy2 of one
source path into the sink under its basename.  A missing source (src p =
none) models the raised exception: it is caught, the sink is unchanged and
success_count is not incremented. -/
def copy_one (src : Sink γ) (sink : Sink γ) (p : List Char) : Sink γ × Bool :=
  match src p with
  | some content => (sink_write sink (basename p) content, true)
  | none => (sink, false)

/-- The copy loop of copy_batch over a batch of file paths: each path is
attempted in order and independently; returns the final sink and
success_count. -/
def copy_files (src : Sink γ) : List (List Char) → Sink γ → Sink γ × Nat
  | [], sink => (sink, 0)
  | p :: rest, sink =>
    let r := copy_one src sink p
    let rr := copy_files src rest r.1
    (rr.1, (if r.2 then 1 else 0) + rr.2)

/-- Models copy_batch: take the next batch (the cursor advances first),
return False at once on an empty batch, otherwise copy every file and
return whether success_count equals the batch size. -/
def copy_batch (src : Sink γ) (sched : SchedulerState) (sink : Sink γ) :
    Bool × SchedulerState × Sink γ :=
  let nb := get_next_batch sched
  if nb.1.isEmpty then (false, nb.2, sink)
  else
    let cr := copy_files src nb.1 sink
    (decide (cr.2 = nb.1.length), nb.2, cr.1)

/-- Models run_continuous truncated at k ticks: each tick runs copy_batch
and the loop continues regardless of the returned outcome. -/
def run_continuous (src : Sink γ) (s : SchedulerState × Sink γ) :
    Nat → SchedulerState × Sink γ
  | 0 => s
  | k + 1 =>
    let r := copy_batch src (run_continuous src s k).1 (run_continuous src s k).2
    (r.2.1, r.2.2)

/-- The content written last to key k by the copy loop over the batch, if
any: later batch elements win, and a path writes only when its source is
present. -/
def write_last (src : Sink γ) : List (List Char) → List Char → Option γ
  | [], _ => none
  | p :: rest, k =>
    match write_last src rest k with
    | some v => some v
    | none => if basename p = k then src p else none

/-- The name Shop-1-20210104-06.csv, a well-formed artifact name. -/
def nameGood : List Char :=
  ['S','h','o','p','-','1','-','2','0','2','1','0','1','0','4','-','0','6','.','c','s','v']

/-- The name Shop-1-20210104-07.csv, one hour after nameGood. -/
def nameGood7 : List Char :=
  ['S','h','o','p','-','1','-','2','0','2','1','0','1','0','4','-','0','7','.','c','s','v']

/-- The name Shop-1-20210104-06-0.csv: five dash-separated segments, the
same shard id and timestamp as nameGood. -/
def nameExtra : List Char :=
  ['S','h','o','p','-','1','-','2','0','2','1','0','1','0','4','-','0','6','-','0','.','c','s','v']

/-- A five-entry corpus (shards at hours 6 and 7, plus a lone tail entry),
used to instantiate the scheduler theorems at M = 5, N = 2. -/
def corpusW5 : List (Nat × List Char) :=
  [(2021010406, ['a']), (2021010406, ['b']),
   (2021010407, ['c']), (2021010407, ['d']),
   (2021010408, ['e'])]

theorem get_next_batch_fst (st : SchedulerState) :
    (get_next_batch st).1 = (batch_entries st).map Prod.snd := by
  by_cases h : st.all_files.length < st.current_index + st.num_shops <;>
    simp [get_next_batch, batch_entries, batch_start, h]

theorem get_next_batch_snd (st : SchedulerState) :
    (get_next_batch st).2 =
      { st with current_index := batch_start st + st.num_shops } := by
  by_cases h : st.all_files.length < st.current_index + st.num_shops <;>
    simp [get_next_batch, batch_start, h]

theorem get_next_batch_all_files (st : SchedulerState) :
    (get_next_batch st).2.all_files = st.all_files := by
  rw [get_next_batch_snd]

theorem get_next_batch_num_shops (st : SchedulerState) :
    (get_next_batch st).2.num_shops = st.num_shops := by
  rw [get_next_batch_snd]

/-- Claim C1: for shard count N greater than 0 over a corpus of length M
at least N, one call to _get_next_batch follows the two-state rule: when
cursor + N is at most M it returns the slice of the corpus from cursor to
cursor + N and sets the cursor to cursor + N; when cursor + N exceeds M it
returns the slice of the first N artifacts from the beginning and sets the
cursor to N. -/
theorem c1_next_batch_two_state (st : SchedulerState)
    (hN : 0 < st.num_shops) (hM : st.num_shops ≤ st.all_files.length) :
    (st.current_index + st.num_shops ≤ st.all_files.length →
      (get_next_batch st).1 =
        ((st.all_files.drop st.current_index).take st.num_shops).map Prod.snd ∧
      (get_next_batch st).2 =
        { st with current_index := st.current_index + st.num_shops }) ∧
    (st.all_files.length < st.current_index + st.num_shops →
      (get_next_batch st).1 = (st.all_files.take st.num_shops).map Prod.snd ∧
      (get_next_batch st).2 = { st with current_index := st.num_shops }) := by
  constructor
  · intro h
    simp [get_next_batch, pySlice, show ¬ st.all_files.length <
      st.current_index + st.num_shops by omega]
  · intro h
    simp [get_next_batch, pySlice, h]

/-- Witness for C1 at the concrete state with corpus corpusW5, N = 2 and
cursor 2: the call returns the second tick and advances the cursor to 4. -/
theorem c1_witness :
    (get_next_batch ⟨corpusW5, 2, 2⟩).1 = [['c'], ['d']] := by
  have h := c1_next_batch_two_state ⟨corpusW5, 2, 2⟩ (by decide) (by decide)
  exact (h.1 (by decide)).1.trans (by decide)

/-- Counterexample for Claim C2: with a corpus of length M = 1 and shard
count N = 2 (so M below N), the first call to _get_next_batch does not
fail: it returns a partial batch holding 1 artifact, fewer than N. -/
theorem c2_counterexample :
    (get_next_batch ⟨[(2021010406, nameGood)], 2, 0⟩).1.length = 1 ∧
    (1 : Nat) < 2 := by decide

/-- Claim C2 as amended: when fewer than N artifacts are available (M
below N, the empty corpus included), the first scheduling call does not
fail with an error; it wraps immediately, returns the clamped slice
holding all M artifacts (a partial batch when 0 < M, the empty list when
M = 0) and sets the cursor to N.  copy_batch reports failure (False)
without attempting any transfer exactly in the empty-corpus case. -/
theorem c2_amended (corpus : List (Nat × List Char)) (N : Nat)
    (src : Sink γ) (sink : Sink γ) (hM : corpus.length < N) :
    (get_next_batch ⟨corpus, N, 0⟩).1 = corpus.map Prod.snd ∧
    (get_next_batch ⟨corpus, N, 0⟩).2.current_index = N ∧
    (corpus = [] →
      copy_batch src ⟨corpus, N, 0⟩ sink = (false, ⟨corpus, N, N⟩, sink)) := by
  refine ⟨?_, ?_, ?_⟩
  · simp [get_next_batch, pySlice, show corpus.length < 0 + N by omega,
      List.take_of_length_le (Nat.le_of_lt hM)]
  · simp [get_next_batch, show corpus.length < 0 + N by omega]
  · intro h
    subst h
    have hN : 0 < N := by simpa using hM
    simp [copy_batch, get_next_batch, pySlice, hN]

/-- Witness for the amended C2 at corpus length 1 and N = 2: the partial
batch holding the single artifact is returned. -/
theorem c2_witness :
    (get_next_batch ⟨[(2021010406, nameGood)], 2, 0⟩).1 = [nameGood] := by
  have h := c2_amended [(2021010406, nameGood)] 2
    (fun _ => (none : Option Nat)) (fun _ => none) (by decide)
  exact h.1.trans (by decide)

theorem sched_iter_all_files (st : SchedulerState) (k : Nat) :
    (sched_iter st k).all_files = st.all_files := by
  induction k with
  | zero => rfl
  | succ k ih => rw [sched_iter, get_next_batch_all_files, ih]

theorem sched_iter_num_shops (st : SchedulerState) (k : Nat) :
    (sched_iter st k).num_shops = st.num_shops := by
  induction k with
  | zero => rfl
  | succ k ih => rw [sched_iter, get_next_batch_num_shops, ih]

theorem sched_iter_cursor_succ (st : SchedulerState) (k : Nat) :
    (sched_iter st (k + 1)).current_index =
      batch_start (sched_iter st k) + st.num_shops := by
  rw [sched_iter, get_next_batch_snd]
  simp [sched_iter_num_shops]

theorem sched_iter_invariant (corpus : List (Nat × List Char)) (N : Nat)
    (hN : 0 < N) (hM : N ≤ corpus.length) (k : Nat) :
    N ∣ (sched_iter ⟨corpus, N, 0⟩ k).current_index ∧
    (sched_iter ⟨corpus, N, 0⟩ k).current_index ≤ corpus.length ∧
    (0 < k → 0 < (sched_iter ⟨corpus, N, 0⟩ k).current_index) := by
  induction k with
  | zero => exact ⟨⟨0, rfl⟩, Nat.zero_le _, fun h => absurd h (by decide)⟩
  | succ k ih =>
    rw [sched_iter_cursor_succ]
    unfold batch_start
    rw [sched_iter_all_files, sched_iter_num_shops]
    dsimp only
    by_cases h : (sched_iter ⟨corpus, N, 0⟩ k).current_index + N > corpus.length
    · rw [if_pos h]
      exact ⟨⟨1, by omega⟩, by omega, fun _ => by omega⟩
    · rw [if_neg h]
      obtain ⟨⟨q, hq⟩, hle, _⟩ := ih
      exact ⟨⟨q + 1, by rw [Nat.mul_succ]; omega⟩, by omega, fun _ => by omega⟩

theorem batch_start_dvd (corpus : List (Nat × List Char)) (N : Nat)
    (hN : 0 < N) (hM : N ≤ corpus.length) (k : Nat) :
    N ∣ batch_start (sched_iter ⟨corpus, N, 0⟩ k) ∧
    batch_start (sched_iter ⟨corpus, N, 0⟩ k) + N ≤ corpus.length := by
  unfold batch_start
  rw [sched_iter_all_files, sched_iter_num_shops]
  dsimp only
  obtain ⟨hdvd, hle, _⟩ := sched_iter_invariant corpus N hN hM k
  by_cases h : (sched_iter ⟨corpus, N, 0⟩ k).current_index + N > corpus.length
  · rw [if_pos h]
    exact ⟨⟨0, by omega⟩, by omega⟩
  · rw [if_neg h]
    exact ⟨hdvd, by omega⟩

/-- Claim C10: for shard count N greater than 0 and corpus length M at
least N, the cursor current_index is 0 initially, and after every call to
_get_next_batch it is a positive multiple of N that is at most M; every
returned batch is the slice beginning at batch_start, which is a multiple
of N. -/
theorem c10_cursor_alignment (corpus : List (Nat × List Char)) (N : Nat)
    (hN : 0 < N) (hM : N ≤ corpus.length) :
    (sched_iter ⟨corpus, N, 0⟩ 0).current_index = 0 ∧
    (∀ k, 0 < k →
      N ∣ (sched_iter ⟨corpus, N, 0⟩ k).current_index ∧
      0 < (sched_iter ⟨corpus, N, 0⟩ k).current_index ∧
      (sched_iter ⟨corpus, N, 0⟩ k).current_index ≤ corpus.length) ∧
    (∀ k, N ∣ batch_start (sched_iter ⟨corpus, N, 0⟩ k) ∧
      nth_batch ⟨corpus, N, 0⟩ k =
        ((corpus.drop (batch_start (sched_iter ⟨corpus, N, 0⟩ k))).take N).map
          Prod.snd) := by
  refine ⟨rfl, ?_, ?_⟩
  · intro k hk
    obtain ⟨hdvd, hle, hpos⟩ := sched_iter_invariant corpus N hN hM k
    exact ⟨hdvd, hpos hk, hle⟩
  · intro k
    refine ⟨(batch_start_dvd corpus N hN hM k).1, ?_⟩
    rw [nth_batch, get_next_batch_fst]
    unfold batch_entries
    rw [sched_iter_all_files, sched_iter_num_shops]
    simp [pySlice]

/-- Witness for C10 at corpus corpusW5 and N = 2: after one call the
cursor is 2, a positive multiple of 2 that is at most 5. -/
theorem c10_witness :
    (2 : Nat) ∣ (sched_iter ⟨corpusW5, 2, 0⟩ 1).current_index ∧
    0 < (sched_iter ⟨corpusW5, 2, 0⟩ 1).current_index ∧
    (sched_iter ⟨corpusW5, 2, 0⟩ 1).current_index ≤ corpusW5.length := by
  have h := c10_cursor_alignment corpusW5 2 (by decide) (by decide)
  exact h.2.1 1 (by decide)

theorem sched_iter_cursor_mul (corpus : List (Nat × List Char)) (N : Nat)
    (hN : 0 < N) (k : Nat) (hk : k ≤ corpus.length / N) :
    (sched_iter ⟨corpus, N, 0⟩ k).current_index = k * N := by
  induction k with
  | zero => simp [sched_iter]
  | succ k ih =>
    have hk1 : (k + 1) * N ≤ corpus.length :=
      (Nat.le_div_iff_mul_le hN).1 hk
    have hcur : (sched_iter ⟨corpus, N, 0⟩ k).current_index = k * N :=
      ih (Nat.le_of_succ_le hk)
    rw [sched_iter_cursor_succ]
    unfold batch_start
    rw [sched_iter_all_files, sched_iter_num_shops, hcur]
    dsimp only
    rw [if_neg (by rw [Nat.succ_mul] at hk1; omega)]
    rw [Nat.succ_mul]

theorem slice_tiling (corpus : List (Nat × List Char)) (N : Nat) :
    ∀ n, (List.range n).flatMap
        (fun i => ((corpus.drop (i * N)).take N).map Prod.snd)
      = (corpus.take (n * N)).map Prod.snd := by
  intro n
  induction n with
  | zero => simp
  | succ n ih =>
    rw [List.range_succ, List.flatMap_append, ih]
    simp only [List.flatMap_cons, List.flatMap_nil, List.append_nil]
    rw [Nat.succ_mul, List.take_add, List.map_append]

/-- Claim C3: for a corpus of length M at least N, shard count N greater
than 0, cursor starting at 0: the first floor(M/N) calls to
_get_next_batch return the consecutive disjoint N-slices that tile the
first floor(M/N)*N artifacts, the following call wraps and returns the
first batch again, and the concatenation of the batches of one cycle is
exactly the first floor(M/N)*N artifacts, so the M mod N tail artifacts
appear in no batch of the cycle. -/
theorem c3_cycle_tiling (corpus : List (Nat × List Char)) (N : Nat)
    (hN : 0 < N) (hM : N ≤ corpus.length) :
    (∀ i, i < corpus.length / N →
      nth_batch ⟨corpus, N, 0⟩ i =
        ((corpus.drop (i * N)).take N).map Prod.snd) ∧
    nth_batch ⟨corpus, N, 0⟩ (corpus.length / N) = nth_batch ⟨corpus, N, 0⟩ 0 ∧
    (List.range (corpus.length / N)).flatMap (nth_batch ⟨corpus, N, 0⟩)
      = (corpus.take (corpus.length / N * N)).map Prod.snd := by
  have hbatch : ∀ i, i < corpus.length / N →
      nth_batch ⟨corpus, N, 0⟩ i =
        ((corpus.drop (i * N)).take N).map Prod.snd := by
    intro i hi
    have hi1 : (i + 1) * N ≤ corpus.length :=
      (Nat.le_div_iff_mul_le hN).1 hi
    have hcur : (sched_iter ⟨corpus, N, 0⟩ i).current_index = i * N :=
      sched_iter_cursor_mul corpus N hN i (Nat.le_of_lt hi)
    rw [nth_batch, get_next_batch_fst]
    unfold batch_entries batch_start
    rw [sched_iter_all_files, sched_iter_num_shops, hcur]
    dsimp only
    rw [if_neg (by rw [Nat.succ_mul] at hi1; omega)]
    simp [pySlice]
  refine ⟨hbatch, ?_, ?_⟩
  · have hfl : corpus.length < (corpus.length / N) * N + N := by
      have h1 : corpus.length / N * N + corpus.length % N = corpus.length :=
        Nat.div_add_mod' corpus.length N
      have h2 : corpus.length % N < N := Nat.mod_lt _ hN
      omega
    have hcur : (sched_iter ⟨corpus, N, 0⟩ (corpus.length / N)).current_index
        = (corpus.length / N) * N :=
      sched_iter_cursor_mul corpus N hN _ (Nat.le_refl _)
    have hbsF : batch_start (sched_iter ⟨corpus, N, 0⟩ (corpus.length / N)) = 0 := by
      unfold batch_start
      rw [sched_iter_all_files, sched_iter_num_shops, hcur]
      dsimp only
      rw [if_pos (by omega)]
    have hbs0 : batch_start (sched_iter ⟨corpus, N, 0⟩ 0) = 0 := by
      show batch_start ⟨corpus, N, 0⟩ = 0
      unfold batch_start
      dsimp only
      split <;> rfl
    rw [nth_batch, get_next_batch_fst, nth_batch, get_next_batch_fst]
    unfold batch_entries
    rw [hbsF, hbs0, sched_iter_all_files, sched_iter_num_shops,
      sched_iter_all_files, sched_iter_num_shops]
  · rw [← slice_tiling corpus N]
    exact List.flatMap_congr (fun i hi => hbatch i (by simpa using hi))

/-- Witness for C3 at corpus corpusW5 (M = 5) and N = 2: the third call
(after floor(5/2) = 2 complete ticks) returns the first batch again. -/
theorem c3_witness :
    nth_batch ⟨corpusW5, 2, 0⟩ 2 = nth_batch ⟨corpusW5, 2, 0⟩ 0 :=
  (c3_cycle_tiling corpusW5 2 (by decide) (by decide)).2.1

theorem flatMap_replicate_length (ticks : List Nat) (N : Nat) :
    (ticks.flatMap (fun t => List.replicate N t)).length = ticks.length * N := by
  induction ticks with
  | nil => simp
  | cons t rest ih => simp [ih, Nat.succ_mul, Nat.add_comm]

theorem flatMap_replicate_drop (ticks : List Nat) (N : Nat) :
    ∀ q, (ticks.flatMap (fun t => List.replicate N t)).drop (q * N)
      = (ticks.drop q).flatMap (fun t => List.replicate N t) := by
  intro q
  induction q generalizing ticks with
  | zero => simp
  | succ q ih =>
    cases ticks with
    | nil => simp
    | cons t rest =>
      have hlen : (q + 1) * N = (List.replicate N t).length + q * N := by
        simp [Nat.succ_mul, Nat.add_comm]
      rw [List.flatMap_cons, hlen, List.drop_append, List.drop_succ_cons, ih]

/-- Counterexample for Claim C8: the corpus indexed from the two names
Shop-1-20210104-06.csv and Shop-1-20210104-07.csv (one shard, two hours)
with shard count N = 2 yields a first batch holding both files, whose
corpus timestamps 2021010406 and 2021010407 differ: the artifacts of one
returned batch need not share a timestamp. -/
theorem c8_counterexample :
    (get_next_batch ⟨get_sorted_files [nameGood, nameGood7], 2, 0⟩).1
        = [nameGood, nameGood7] ∧
    (get_sorted_files [nameGood, nameGood7]).map Prod.fst
        = [2021010406, 2021010407] ∧
    (2021010406 : Nat) ≠ 2021010407 := by decide

/-- Claim C8 as amended: when the corpus consists of complete ticks —
its timestamp sequence is a concatenation of blocks of N equal
timestamps — and 0 < N and N is at most the corpus length, then every
returned batch is the filepath image of a run of corpus entries that all
share one timestamp. -/
theorem c8_amended (corpus : List (Nat × List Char)) (N : Nat)
    (ticks : List Nat) (hN : 0 < N) (hM : N ≤ corpus.length)
    (hticks : corpus.map Prod.fst = ticks.flatMap (fun t => List.replicate N t)) :
    ∀ k, nth_batch ⟨corpus, N, 0⟩ k
        = (batch_entries (sched_iter ⟨corpus, N, 0⟩ k)).map Prod.snd ∧
      ∃ t, ∀ e ∈ batch_entries (sched_iter ⟨corpus, N, 0⟩ k), e.1 = t := by
  intro k
  refine ⟨get_next_batch_fst _, ?_⟩
  obtain ⟨⟨q, hq⟩, hle⟩ := batch_start_dvd corpus N hN hM k
  have hfst : (batch_entries (sched_iter ⟨corpus, N, 0⟩ k)).map Prod.fst
      = ((ticks.drop q).flatMap (fun t => List.replicate N t)).take N := by
    unfold batch_entries
    rw [sched_iter_all_files, sched_iter_num_shops]
    dsimp only
    rw [pySlice, Nat.add_sub_cancel_left, List.map_take, List.map_drop,
      hticks, hq, Nat.mul_comm N q, flatMap_replicate_drop]
  have hqlt : q < ticks.length := by
    have hlen : corpus.length = ticks.length * N := by
      have h := congrArg List.length hticks
      rw [List.length_map, flatMap_replicate_length] at h
      exact h
    rw [hq, hlen] at hle
    have h2 : N * (q + 1) ≤ N * ticks.length := by
      calc N * (q + 1) = N * q + N := Nat.mul_succ N q
        _ ≤ ticks.length * N := hle
        _ = N * ticks.length := Nat.mul_comm _ _
    exact Nat.lt_of_succ_le (Nat.le_of_mul_le_mul_left h2 hN)
  cases hdrop : ticks.drop q with
  | nil =>
    exfalso
    have := congrArg List.length hdrop
    simp at this
    omega
  | cons t rest =>
    refine ⟨t, fun e he => ?_⟩
    have hmem : e.1 ∈ (batch_entries (sched_iter ⟨corpus, N, 0⟩ k)).map Prod.fst :=
      List.mem_map_of_mem Prod.fst he
    rw [hfst, hdrop, List.flatMap_cons] at hmem
    have hrep : ((List.replicate N t ++
        rest.flatMap (fun t => List.replicate N t)).take N) = List.replicate N t :=
      List.take_left' (by simp)
    rw [hrep] at hmem
    exact List.eq_of_mem_replicate hmem

/-- Witness for the amended C8 on the two-tick corpus built from corpusW5
without its tail entry: the first batch's entries all carry hour 6. -/
theorem c8_witness :
    ∃ t, ∀ e ∈ batch_entries (sched_iter ⟨corpusW5.take 4, 2, 0⟩ 0), e.1 = t := by
  have h := c8_amended (corpusW5.take 4) 2 [2021010406, 2021010407]
    (by decide) (by decide) (by decide) 0
  exact h.2

theorem copy_files_count (src : Sink γ) :
    ∀ (batch : List (List Char)) (sink : Sink γ),
      (copy_files src batch sink).2
        = (batch.filter (fun p => (src p).isSome)).length := by
  intro batch
  induction batch with
  | nil => intro sink; rfl
  | cons p rest ih =>
    intro sink
    cases hsp : src p with
    | none => simp [copy_files, copy_one, hsp, ih, List.filter_cons]
    | some c =>
      simp [copy_files, copy_one, hsp, ih, List.filter_cons, Nat.add_comm]

theorem copy_files_count_le (src : Sink γ) (batch : List (List Char))
    (sink : Sink γ) : (copy_files src batch sink).2 ≤ batch.length := by
  rw [copy_files_count]
  exact List.length_filter_le _ _

theorem copy_batch_sched (src : Sink γ) (sched : SchedulerState)
    (sink : Sink γ) :
    (copy_batch src sched sink).2.1 = (get_next_batch sched).2 := by
  by_cases h : (get_next_batch sched).1.isEmpty <;> simp [copy_batch, h]

theorem run_continuous_sched (src : Sink γ) (s : SchedulerState × Sink γ) :
    ∀ k, (run_continuous src s k).1 = sched_iter s.1 k := by
  intro k
  induction k with
  | zero => rfl
  | succ k ih =>
    show (copy_batch src (run_continuous src s k).1
      (run_continuous src s k).2).2.1 = _
    rw [copy_batch_sched, ih, sched_iter]

/-- Claim C6: the dispatcher attempts every artifact of the batch
independently of other failures — success_count is the number of batch
artifacts whose source is present, wherever the failures sit — the batch
is reported failed (copy_batch returns False) exactly when success_count
is below the batch size, and a partial failure never stops the run: the
scheduler advances to the next tick regardless of the source contents,
and after k ticks of the continuous loop the scheduler state is exactly k
scheduler steps, whatever failed. -/
theorem c6_dispatch_continue_on_error (src : Sink γ) (sink : Sink γ)
    (sched : SchedulerState) (hne : (get_next_batch sched).1 ≠ []) :
    (copy_files src (get_next_batch sched).1 sink).2
      = ((get_next_batch sched).1.filter (fun p => (src p).isSome)).length ∧
    ((copy_batch src sched sink).1 = false ↔
      (copy_files src (get_next_batch sched).1 sink).2
        < (get_next_batch sched).1.length) ∧
    (copy_batch src sched sink).2.1 = (get_next_batch sched).2 ∧
    (∀ k, (run_continuous src (sched, sink) k).1 = sched_iter sched k) := by
  refine ⟨copy_files_count src _ sink, ?_, copy_batch_sched src sched sink,
    run_continuous_sched src (sched, sink)⟩
  have hcnt := copy_files_count_le src (get_next_batch sched).1 sink
  have hne' : (get_next_batch sched).1.isEmpty = false := by
    simpa [List.isEmpty_iff] using hne
  constructor
  · intro hfalse
    simp only [copy_batch, hne', Bool.false_eq_true, if_false,
      decide_eq_false_iff_not] at hfalse
    omega
  · intro hlt
    simp only [copy_batch, hne', Bool.false_eq_true, if_false,
      decide_eq_false_iff_not]
    omega

/-- A source for the dispatcher witness: only the file a is present. -/
def srcW : Sink Nat := fun p => if p = ['a'] then some 0 else none

/-- A two-entry corpus forming one complete tick. -/
def corpusW2 : List (Nat × List Char) :=
  [(2021010406, ['a']), (2021010406, ['b'])]

/-- Witness for C6 at the scenario of the spec: a batch of two artifacts
with one missing source yields success_count 1 of 2 and the batch is
reported failed. -/
theorem c6_witness :
    (copy_files srcW (get_next_batch ⟨corpusW2, 2, 0⟩).1 (fun _ => none)).2 = 1 ∧
    (copy_batch srcW ⟨corpusW2, 2, 0⟩ (fun _ => none)).1 = false := by
  have h := c6_dispatch_continue_on_error srcW (fun _ => none)
    ⟨corpusW2, 2, 0⟩ (by decide)
  exact ⟨h.1.trans (by decide), h.2.1.mpr (by decide)⟩

theorem copy_files_fst_apply (src : Sink γ) :
    ∀ (batch : List (List Char)) (sink : Sink γ) (k : List Char),
      (copy_files src batch sink).1 k
        = (write_last src batch k).elim (sink k) some := by
  intro batch
  induction batch with
  | nil => intro sink k; rfl
  | cons p rest ih =>
    intro sink k
    show (copy_files src rest (copy_one src sink p).1).1 k = _
    rw [ih]
    cases hw : write_last src rest k with
    | some v => simp [write_last, hw]
    | none =>
      cases hsp : src p with
      | none =>
        by_cases hb : basename p = k <;>
          simp [write_last, hw, hb, copy_one, hsp]
      | some c =>
        by_cases hb : basename p = k
        · simp [write_last, hw, hb, copy_one, hsp, sink_write]
        · have hb2 : ¬ (k = basename p) := fun h => hb h.symm
          simp [write_last, hw, hb, hb2, copy_one, hsp, sink_write]

/-- Claim C7: dispatch is idempotent on the destination sink: running the
copy loop twice on the same batch with the same source leaves the sink
exactly as one run does (each artifact is written under its basename as
key, the second run overwrites each copy with identical content), and the
second run reports the same success_count. -/
theorem c7_dispatch_idempotent (src : Sink γ) (sink : Sink γ)
    (batch : List (List Char)) :
    (copy_files src batch (copy_files src batch sink).1).1
      = (copy_files src batch sink).1 ∧
    (copy_files src batch (copy_files src batch sink).1).2
      = (copy_files src batch sink).2 := by
  constructor
  · funext k
    simp only [copy_files_fst_apply]
    cases hw : write_last src batch k <;> rfl
  · rw [copy_files_count, copy_files_count]

/-- Claim C4: the corpus is exactly the successfully parsed entries in
ascending order primarily by timestamp and secondarily by shard id, by a
stable sort and with no deduplication: the sorted sequence is a
permutation of the parsed entries (so every duplicate is kept) and, for
every key (timestamp, shard id), the entries carrying that key appear in
their original scan order. -/
theorem c4_sorted_corpus (files : List (List Char)) :
    get_sorted_files files
      = (List.insertionSort entryLE (files.filterMap parseArtifact)).map
          (fun e => (e.1, e.2.2)) ∧
    List.Perm (List.insertionSort entryLE (files.filterMap parseArtifact))
      (files.filterMap parseArtifact) ∧
    (List.insertionSort entryLE (files.filterMap parseArtifact)).Sorted entryLE ∧
    ∀ ts sid,
      (List.insertionSort entryLE (files.filterMap parseArtifact)).filter
          (fun e => decide (e.1 = ts ∧ e.2.1 = sid))
        = (files.filterMap parseArtifact).filter
          (fun e => decide (e.1 = ts ∧ e.2.1 = sid)) := by
  refine ⟨rfl, List.perm_insertionSort entryLE _,
    List.sorted_insertionSort entryLE _, ?_⟩
  intro ts sid
  have hmem : ∀ a ∈ (files.filterMap parseArtifact).filter
      (fun e => decide (e.1 = ts ∧ e.2.1 = sid)),
      ∀ b ∈ (files.filterMap parseArtifact).filter
      (fun e => decide (e.1 = ts ∧ e.2.1 = sid)), entryLE a b := by
    intro a ha b hb
    have ha2 := List.of_mem_filter ha
    have hb2 := List.of_mem_filter hb
    rw [decide_eq_true_eq] at ha2 hb2
    exact Or.inr ⟨ha2.1.trans hb2.1.symm, by omega⟩
  have hsub : List.Sublist
      ((files.filterMap parseArtifact).filter
        (fun e => decide (e.1 = ts ∧ e.2.1 = sid)))
      (List.insertionSort entryLE (files.filterMap parseArtifact)) :=
    List.sublist_insertionSort (List.pairwise_of_forall_mem_list hmem)
      (List.filter_sublist _)
  have hsub2 := hsub.filter (fun e => decide (e.1 = ts ∧ e.2.1 = sid))
  rw [List.filter_filter] at hsub2
  simp only [Bool.and_self] at hsub2
  have hperm : List.Perm
      ((List.insertionSort entryLE (files.filterMap parseArtifact)).filter
        (fun e => decide (e.1 = ts ∧ e.2.1 = sid)))
      ((files.filterMap parseArtifact).filter
        (fun e => decide (e.1 = ts ∧ e.2.1 = sid))) :=
    (List.perm_insertionSort entryLE _).filter _
  exact (hsub2.eq_of_length hperm.length_eq.symm).symm

/-- Counterexample for Claim C9: the listings [nameGood, nameExtra] and
[nameExtra, nameGood] hold the same set of names in different orders, yet
the corpora differ: both names carry the key (2021010406, 1), so the
stable sort keeps them in their scan order. -/
theorem c9_counterexample :
    List.Perm [nameGood, nameExtra] [nameExtra, nameGood] ∧
    get_sorted_files [nameGood, nameExtra]
      ≠ get_sorted_files [nameExtra, nameGood] :=
  ⟨List.Perm.swap nameExtra nameGood [], by decide⟩

theorem entryLE_ne_lt {a b : Entry} (h1 : entryLE a b)
    (h2 : entryKey a ≠ entryKey b) : entryLT a b := by
  have h3 : ¬ (a.1 = b.1 ∧ a.2.1 = b.2.1) := by
    intro hc
    exact h2 (by simp [entryKey, hc.1, hc.2])
  unfold entryLE at h1
  unfold entryLT
  omega

theorem sort_strict_of_nodup_keys (l : List Entry)
    (h : (l.map entryKey).Nodup) :
    (List.insertionSort entryLE l).Pairwise entryLT := by
  have hnd : ((List.insertionSort entryLE l).map entryKey).Nodup :=
    (((List.perm_insertionSort entryLE l).map entryKey).nodup_iff).2 h
  have hne : (List.insertionSort entryLE l).Pairwise
      (fun a b => entryKey a ≠ entryKey b) := List.pairwise_map.1 hnd
  have hle : (List.insertionSort entryLE l).Sorted entryLE :=
    List.sorted_insertionSort entryLE l
  exact (hle.and hne).imp (fun h => entryLE_ne_lt h.1 h.2)

/-- Claim C9 as amended: indexing is deterministic in the scanned set of
names provided the parsed entries carry pairwise distinct keys
(timestamp, shard id): two listings holding the same names in different
orders produce the identical corpus.  (Without that proviso the stable
sort keeps equal-key entries in scan order, as the counterexample
shows.) -/
theorem c9_amended (l₁ l₂ : List (List Char)) (hperm : List.Perm l₁ l₂)
    (hkeys : ((l₁.filterMap parseArtifact).map entryKey).Nodup) :
    get_sorted_files l₁ = get_sorted_files l₂ := by
  have hpe : List.Perm (l₁.filterMap parseArtifact) (l₂.filterMap parseArtifact) :=
    hperm.filterMap parseArtifact
  have hkeys₂ : ((l₂.filterMap parseArtifact).map entryKey).Nodup :=
    ((hpe.map entryKey).nodup_iff).1 hkeys
  have hlt₁ := sort_strict_of_nodup_keys (l₁.filterMap parseArtifact) hkeys
  have hlt₂ := sort_strict_of_nodup_keys (l₂.filterMap parseArtifact) hkeys₂
  have hperm2 : List.Perm (List.insertionSort entryLE (l₁.filterMap parseArtifact))
      (List.insertionSort entryLE (l₂.filterMap parseArtifact)) :=
    ((List.perm_insertionSort entryLE _).trans hpe).trans
      (List.perm_insertionSort entryLE _).symm
  have heq := List.eq_of_perm_of_sorted hperm2 hlt₁ hlt₂
  show (List.insertionSort entryLE (l₁.filterMap parseArtifact)).map
      (fun e => (e.1, e.2.2))
    = (List.insertionSort entryLE (l₂.filterMap parseArtifact)).map
      (fun e => (e.1, e.2.2))
  rw [heq]

/-- Witness for the amended C9: the two names of distinct keys produce the
same corpus from either enumeration order. -/
theorem c9_witness :
    get_sorted_files [nameGood, nameGood7]
      = get_sorted_files [nameGood7, nameGood] :=
  c9_amended [nameGood, nameGood7] [nameGood7, nameGood]
    (List.Perm.swap nameGood7 nameGood []) (by decide)

/-- The name Shop-+1-20210104-06.csv: Python int() accepts the
plus-signed shard id, so the program indexes it. -/
def namePlus : List Char :=
  ['S','h','o','p','-','+','1','-','2','0','2','1','0','1','0','4','-','0','6','.','c','s','v']

/-- The name Shop-1-2021923-06.csv: strptime accepts the seven-digit
date as 2021-09-23, so the program indexes it. -/
def nameSevenDigit : List Char :=
  ['S','h','o','p','-','1','-','2','0','2','1','9','2','3','-','0','6','.','c','s','v']

/-- Validation of pyInt against CPython int() on its accepted and
rejected ASCII forms: plus sign, surrounding whitespace and single
underscores between digits are accepted; misplaced underscores, inner
spaces, a bare sign and the empty string are rejected. -/
theorem pyInt_matches_python :
    pyInt ['+','1'] = some 1 ∧
    pyInt [' ','1'] = some 1 ∧
    pyInt ['1','_','0'] = some 10 ∧
    pyInt ['\t','5','\n'] = some 5 ∧
    pyInt [' ','+','7',' '] = some 7 ∧
    pyInt ['1','_'] = none ∧
    pyInt ['_','1'] = none ∧
    pyInt ['1','_','_','0'] = none ∧
    pyInt ['+'] = none ∧
    pyInt ['1',' ','0'] = none ∧
    pyInt [] = none := by decide

/-- Validation of parseTimestamp against CPython strptime with the
format percent-Y percent-m percent-d dash percent-H: seven- and
six-digit dates, a space-padded day and a one-digit hour parse exactly
as CPython's regex backtracking does; an invalid calendar date, a year
of zero, an out-of-range hour and leftover input are rejected. -/
theorem parseTimestamp_matches_python :
    parseTimestamp ['2','0','2','1','9','2','3'] ['0','6'] = some 2021092306 ∧
    parseTimestamp ['2','0','2','1','0','1',' ','4'] ['0','6'] = some 2021010406 ∧
    parseTimestamp ['2','0','2','1','1','1'] ['0','6'] = some 2021010106 ∧
    parseTimestamp ['2','0','2','1','1','0','4'] ['0','6'] = some 2021100406 ∧
    parseTimestamp ['2','0','2','1','1','2'] ['6'] = some 2021010206 ∧
    parseTimestamp ['9','9','9','9','1','2','3'] ['0'] = some 9999120300 ∧
    parseTimestamp ['2','0','2','1','0','2','3','0'] ['0','6'] = none ∧
    parseTimestamp ['2','0','2','1','0','2','0'] ['0','6'] = none ∧
    parseTimestamp ['0','0','0','0','0','1','0','1'] ['0','6'] = none ∧
    parseTimestamp ['2','0','2','1','0','1','0','4'] ['2','9'] = none ∧
    parseTimestamp ['2','0','2','1','0','1','0','4'] ['0','6','5'] = none := by decide

/-- Validation of the whole parse on the two names the program keeps
that a digits-only model would wrongly exclude. -/
theorem parseArtifact_matches_python :
    parseArtifact namePlus = some (2021010406, 1, namePlus) ∧
    parseArtifact nameSevenDigit = some (2021092306, 1, nameSevenDigit) := by
  decide

theorem parseArtifact_eq (n : List Char) :
    parseArtifact n =
      match (nameSegments n)[1]?, (nameSegments n)[2]?, (nameSegments n)[3]? with
      | some idStr, some dateStr, some hourStr =>
        (match pyInt idStr, parseTimestamp dateStr hourStr with
          | some sid, some ts => some (ts, sid, n)
          | _, _ => none)
      | _, _, _ => none := rfl

/-- Counterexample for Claim C5: the scanned name
Shop-1-20210104-06-0.csv has five dash-separated segments — the wrong
segment count for the four-segment naming template — yet it is not
excluded: it parses (the extra trailing segment is ignored) and the
corpus built from it holds it. -/
theorem c5_counterexample :
    (nameSegments nameExtra).length = 5 ∧
    parseArtifact nameExtra = some (2021010406, 1, nameExtra) ∧
    get_sorted_files [nameExtra] = [(2021010406, nameExtra)] := by decide

/-- Claim C5 as amended: a scanned name is excluded from the corpus (with
a warning, and without raising) exactly when it has fewer than four
dash-separated segments, or Python int() rejects its second segment
(after stripping ASCII whitespace and an optional leading plus sign, the
body is not decimal digits with single underscores between digits), or
strptime rejects its third and fourth segments (no four-digit year
followed by a month/day alternation decomposition of the date segment
that constructs a calendar date with year at least 1, or an hour segment
that is not one digit or two digits below 24); the scan keeps exactly the
parsable names, in scan order, and the warned names are exactly the
unparsable ones.  (A name with more than four segments is kept, its extra
segments ignored — the deviation the counterexample exhibits; pyInt and
parseTimestamp above model the int() and strptime acceptance exactly on
the ASCII alphabet, including plus-signed and underscored ids and short
or space-padded dates.) -/
theorem c5_amended (files : List (List Char)) :
    (∀ n, parseArtifact n = none ↔
      ((nameSegments n).length < 4 ∨
        ∃ idStr dateStr hourStr,
          (nameSegments n)[1]? = some idStr ∧
          (nameSegments n)[2]? = some dateStr ∧
          (nameSegments n)[3]? = some hourStr ∧
          (pyInt idStr = none ∨ parseTimestamp dateStr hourStr = none))) ∧
    (scanResults files).1 = files.filterMap parseArtifact ∧
    (scanResults files).2 = files.filter (fun n => (parseArtifact n).isNone) ∧
    (∀ n ∈ files, parseArtifact n = none → n ∈ (scanResults files).2) ∧
    get_sorted_files files
      = (List.insertionSort entryLE ((scanResults files).1)).map
          (fun e => (e.1, e.2.2)) := by
  have hscan1 : ∀ fs : List (List Char),
      (scanResults fs).1 = fs.filterMap parseArtifact := by
    intro fs
    induction fs with
    | nil => rfl
    | cons f rest ih =>
      cases hp : parseArtifact f <;>
        simp [scanResults, List.filterMap_cons, hp, ih]
  have hscan2 : ∀ fs : List (List Char),
      (scanResults fs).2 = fs.filter (fun n => (parseArtifact n).isNone) := by
    intro fs
    induction fs with
    | nil => rfl
    | cons f rest ih =>
      cases hp : parseArtifact f <;>
        simp [scanResults, List.filter_cons, hp, ih]
  refine ⟨?_, hscan1 files, hscan2 files, ?_, ?_⟩
  · intro n
    rw [parseArtifact_eq]
    cases h1 : (nameSegments n)[1]? with
    | none =>
      have hlen : (nameSegments n).length ≤ 1 := by
        simpa using h1
      exact ⟨fun _ => Or.inl (by omega), fun _ => rfl⟩
    | some idStr =>
      cases h2 : (nameSegments n)[2]? with
      | none =>
        have hlen : (nameSegments n).length ≤ 2 := by
          simpa using h2
        exact ⟨fun _ => Or.inl (by omega), fun _ => rfl⟩
      | some dateStr =>
        cases h3 : (nameSegments n)[3]? with
        | none =>
          have hlen : (nameSegments n).length ≤ 3 := by
            simpa using h3
          exact ⟨fun _ => Or.inl (by omega), fun _ => rfl⟩
        | some hourStr =>
          have hlen4 : 3 < (nameSegments n).length := by
            by_contra hc
            push_neg at hc
            rw [List.getElem?_eq_none hc] at h3
            exact Option.noConfusion h3
          constructor
          · intro hparse
            cases h4 : pyInt idStr with
            | none =>
              exact Or.inr ⟨idStr, dateStr, hourStr, rfl, rfl, rfl, Or.inl h4⟩
            | some sid =>
              cases h5 : parseTimestamp dateStr hourStr with
              | none =>
                exact Or.inr ⟨idStr, dateStr, hourStr, rfl, rfl, rfl, Or.inr h5⟩
              | some ts =>
                simp [h4, h5] at hparse
          · rintro (hlt | ⟨i, d, h, hi, hd, hh, hbad⟩)
            · exact absurd hlt (by omega)
            · injection hi with hi
              injection hd with hd
              injection hh with hh
              subst hi
              subst hd
              subst hh
              rcases hbad with h4 | h5
              · simp [h4]
              · cases h6 : pyInt idStr <;> simp [h5, h6]
  · intro n hn hnone
    rw [hscan2 files]
    rw [List.mem_filter]
    exact ⟨hn, by simp [hnone]⟩
  · rw [hscan1 files]
    rfl
